import Mathlib

/-!
Verification of the `nor_crawler` crawler core (src/crawler/): a shallow
embedding in Lean 4 of the URL utilities (`utils.py`), the frontier/scheduler
(`scheduler.py`), the politeness layer (`anti_bot.py`: `RobotsCache`,
`BackoffStrategy`) and the fetch pipeline (`fetcher.py`: `ProxyPool`,
`Fetcher.fetch`), together with theorems settling the specification's claims
about them.

Modelling conventions:
- Python URL strings are represented in their parsed form (`ParsedUrl`), the
  six-tuple produced by `urllib.parse.urlparse`; `urlparse`/`urlunparse` are
  treated as the identity on this representation (two URLs are "the same
  normalized string" iff their components minus the fragment agree).
- Python `float` arithmetic in the backoff computation is modelled exactly
  over `ℚ` (the literal `0.2` as `2/10`); `x % y` on floats is `pymod`, and
  `x % 0.0` (which raises `ZeroDivisionError` in Python) is modelled by the
  `Option.none` result of `compute_delay_ms`.
- Mutable objects become explicit state passed in and out; `asyncio`
  concurrency is modelled by its sequential semantics (the worker loop's
  control flow), and real I/O (the robots.txt fetch, the HTTP request, the
  event-loop clock) by oracle functions supplied as arguments.
-/

namespace Crawler

/-- A parsed URL, as returned by `urllib.parse.urlparse`: the six components
`(scheme, netloc, path, params, query, fragment)`. -/
structure ParsedUrl where
  scheme : String
  netloc : String
  path : String
  params : String
  query : String
  fragment : String
deriving DecidableEq, Repr

/-- Embedding of `utils.get_domain`: extract the domain (netloc) from a URL. -/
def get_domain (u : ParsedUrl) : String := u.netloc

/-- Python's `str.lower`, character-wise over the string's characters
(ASCII as in the domains the code compares; structurally recursive so that
concrete instances evaluate). -/
def strLower (s : String) : String := ⟨s.data.map Char.toLower⟩

/-- Python's `str.endswith`, as suffix matching on the character list. -/
def strEndsWith (s suffixStr : String) : Bool :=
  List.isSuffixOf suffixStr.data s.data

/-- Python's `str.startswith`, as stem matching on the character list. -/
def strStartsWith (s stem : String) : Bool :=
  List.isPrefixOf stem.data s.data

/-- Embedding of `utils.same_domain`: whether the URL's lower-cased netloc ends with the
lower-cased form of any domain in the list
(`any(netloc.endswith(d.lower()) for d in domains)` with
`netloc = get_domain(url).lower()`). -/
def same_domain (u : ParsedUrl) (domains : List String) : Bool :=
  domains.any (fun d => strEndsWith (strLower (get_domain u)) (strLower d))

/-- Embedding of `utils.normalize_url`: strip the fragment
(`parsed._replace(fragment="")`), keeping every other component. -/
def normalize_url (u : ParsedUrl) : ParsedUrl := { u with fragment := "" }

/-- The `scheduler.Scheduler` state: the `asyncio.Queue` of pending URLs (FIFO,
`put_nowait` appends at the tail, `get` pops the head), the `seen` set of
normalized URLs, and the configured `allowed_domains` list. -/
structure Scheduler where
  queue : List ParsedUrl
  seen : Finset ParsedUrl
  allowed_domains : List String
deriving DecidableEq

/-- Embedding of `Scheduler.enqueue`: normalize; if `allowed_domains` is non-empty and the
URL is out of scope, silently drop; if already seen, silently drop; otherwise
add to the seen set and push onto the queue.  The function is total: no
branch raises. -/
def Scheduler.enqueue (s : Scheduler) (url : ParsedUrl) : Scheduler :=
  let url := normalize_url url
  if s.allowed_domains ≠ [] ∧ ¬ same_domain url s.allowed_domains then s
  else if url ∈ s.seen then s
  else { s with seen := insert url s.seen, queue := s.queue ++ [url] }

/-- Embedding of `Scheduler.__init__`: empty queue and seen set, `allowed_domains or []`,
then every seed is passed through `enqueue`. -/
def Scheduler.init (seeds : List ParsedUrl) (allowed_domains : List String) :
    Scheduler :=
  seeds.foldl Scheduler.enqueue
    { queue := [], seen := ∅, allowed_domains := allowed_domains }

/-- Python's `x % y` on floats for `y ≠ 0`, modelled exactly over `ℚ`:
`x - y * floor (x / y)`.  For `y > 0` the result lies in `[0, y)`. -/
def pymod (x y : ℚ) : ℚ := x - y * ⌊x / y⌋

/-- The unjittered base of `BackoffStrategy.compute_delay_ms`:
`min(initial_ms * 2 ** max(0, attempt - 1), max_ms)` (for `attempt : ℕ`,
truncated subtraction coincides with `max(0, attempt - 1)`). -/
def baseOf (initial_ms max_ms : ℤ) (attempt : ℕ) : ℚ :=
  min ((initial_ms : ℚ) * 2 ^ (attempt - 1)) ((max_ms : ℚ))

/-- Embedding of `anti_bot.BackoffStrategy.compute_delay_ms`:
`base + (loop.time() % jitter) - jitter / 2` with `jitter = base * 0.2`;
`t` is the event-loop clock reading at the call.  Python raises
`ZeroDivisionError` when `jitter == 0` (the modulo's right operand),
modelled as `none`. -/
def compute_delay_ms (initial_ms max_ms : ℤ) (attempt : ℕ) (t : ℚ) :
    Option ℚ :=
  let base := baseOf initial_ms max_ms attempt
  let jitter := base * (2 / 10)
  if jitter = 0 then none
  else some (base + pymod t jitter - jitter / 2)

/-- Model of CPython's `urllib.robotparser.RobotFileParser` state as far as
`can_fetch` consults it: `fresh` is a parser on which `read()` never
completed (`disallow_all = allow_all = False`, `last_checked = 0`);
`allowAll` / `disallowAll` are the flag states `read()` sets on a 4xx /
401-403 HTTP error; `rules ps` is a successfully parsed ruleset, abstracted
as a list of disallowed path stems. -/
inductive RpState where
  | fresh
  | allowAll
  | disallowAll
  | rules (disallowedPaths : List String)
deriving DecidableEq, Repr

/-- Model of CPython's `RobotFileParser.can_fetch`: `disallow_all` forces
`False`, `allow_all` forces `True`, and — the decisive case for the claims —
a parser whose robots file was never read (`last_checked == 0`) returns
`False` ("until the robots.txt file has been read ... assume that no url is
allowable").  A parsed ruleset is modelled as path-stem matching. -/
def RpState.can_fetch (rp : RpState) (u : ParsedUrl) : Bool :=
  match rp with
  | .fresh => false
  | .allowAll => true
  | .disallowAll => false
  | .rules ps => ! ps.any (fun p => strStartsWith u.path p)

/-- The `anti_bot.RobotsCache` state: the configured user agent and the
per-domain cache (`self._cache`); the stored value is never `None`
(the code stores `rp or robotparser.RobotFileParser()`). -/
structure RobotsCache where
  user_agent : String
  cache : List (String × RpState)
deriving DecidableEq

/-- A fresh `RobotsCache()` as constructed by `Fetcher.__init__`. -/
def RobotsCache.init : RobotsCache := { user_agent := "*", cache := [] }

/-- Embedding of `RobotsCache.allowed`, with the robots.txt network fetch abstracted by
`readOracle : domain → Option RpState`: `none` means `rp.read()` raised (the
code's `except Exception: rp = None`, after which a fresh
`RobotFileParser()` is cached), `some st` the parser state `read()` left
behind.  Returns the verdict together with the mutated cache.  The final
`can_fetch` call is wrapped in `try/except: return True` in the source, but
the model's `can_fetch` is total, and `if not rp: return True` is
unreachable because a parser object is always truthy. -/
def RobotsCache.allowed (c : RobotsCache)
    (readOracle : String → Option RpState) (url : ParsedUrl) :
    Bool × RobotsCache :=
  let domain := url.netloc
  let c' :=
    if (c.cache.lookup domain).isSome then c
    else
      let rp := readOracle domain
      { c with cache := (domain, rp.getD .fresh) :: c.cache }
  match c'.cache.lookup domain with
  | none => (true, c')
  | some rp => (rp.can_fetch url, c')

/-- The `fetcher.ProxyPool` state: the proxy list, the failure threshold
(default 3), the per-proxy consecutive-failure counters
(`fail_counts.get(p, 0)` modelled as a total function defaulting to 0), and
the round-robin cursor `_idx`. -/
structure ProxyPool where
  proxies : List String
  fail_threshold : ℕ
  fail_counts : String → ℕ
  idx : ℕ

/-- The pool `ProxyPool(proxies)` as constructed by `Fetcher.__init__`
(`fail_threshold = 3`, all counters 0, `_idx = 0`). -/
def ProxyPool.init (proxies : List String) : ProxyPool :=
  { proxies := proxies, fail_threshold := 3, fail_counts := fun _ => 0,
    idx := 0 }

/-- The body of `ProxyPool.next`'s `while True` loop: examine the proxy at
the cursor, advance the cursor modulo the pool size, return the proxy if its
failure count is below the threshold, return `none` once the cursor is back
at `start`.  The loop visits each index at most once, so `fuel =
proxies.length` suffices; the result carries the new cursor. -/
def ProxyPool.nextAux (proxies : List String) (threshold : ℕ)
    (counts : String → ℕ) (start : ℕ) :
    ℕ → ℕ → Option String × ℕ
  | 0, i => (none, i)
  | fuel + 1, i =>
    let proxy := proxies.getD i ""
    let i' := (i + 1) % proxies.length
    if counts proxy < threshold then (some proxy, i')
    else if i' = start then (none, i')
    else ProxyPool.nextAux proxies threshold counts start fuel i'

/-- Embedding of `ProxyPool.next`: `None` on an empty pool, otherwise the round-robin
scan starting at `_idx`.  The source maintains `_idx < len(proxies)` (it is
initialised to 0 and only ever assigned modulo the length); the model takes
the cursor modulo the length so the function is total on all states. -/
def ProxyPool.next (p : ProxyPool) : Option String × ProxyPool :=
  if p.proxies = [] then (none, p)
  else
    let start := p.idx % p.proxies.length
    let r := ProxyPool.nextAux p.proxies p.fail_threshold p.fail_counts
      start p.proxies.length start
    (r.1, { p with idx := r.2 })

/-- Embedding of `ProxyPool.mark_failure`: no-op on a falsy proxy (`None` or the empty
string), otherwise increment the proxy's counter. -/
def ProxyPool.mark_failure (p : ProxyPool) (proxy : Option String) :
    ProxyPool :=
  match proxy with
  | none => p
  | some s =>
    if s = "" then p
    else { p with
      fail_counts := fun q => if q = s then p.fail_counts s + 1
                              else p.fail_counts q }

/-- Embedding of `ProxyPool.mark_success`: no-op on a falsy proxy, otherwise reset the
proxy's counter to 0. -/
def ProxyPool.mark_success (p : ProxyPool) (proxy : Option String) :
    ProxyPool :=
  match proxy with
  | none => p
  | some s =>
    if s = "" then p
    else { p with
      fail_counts := fun q => if q = s then 0 else p.fail_counts q }

/-- Apply `n` consecutive `mark_failure(q)` calls with no intervening
`mark_success`. -/
def failStorm (q : String) (n : ℕ) (p : ProxyPool) : ProxyPool :=
  (fun pl => ProxyPool.mark_failure pl (some q))^[n] p

/-- The outcome of one network attempt (`client.get(url, ...)`), supplied as
an oracle indexed by the attempt counter: a response with status and text, a
raised `httpx.RequestError`, or any other raised exception. -/
inductive NetOutcome where
  | ok (status : ℕ) (text : String)
  | requestError
  | unexpectedError
deriving DecidableEq, Repr

/-- The retryable status set of `Fetcher.fetch`:
`status in (403, 429, 500, 502, 503)`. -/
def retryable (status : ℕ) : Bool :=
  status = 403 || status = 429 || status = 500 || status = 502 ||
    status = 503

/-- Whether a network outcome sends `Fetcher.fetch`'s loop into its retry
path: a retryable status or a `RequestError`; an unexpected exception does
not retry. -/
def retryableOutcome (o : NetOutcome) : Bool :=
  match o with
  | .ok status _ => retryable status
  | .requestError => true
  | .unexpectedError => false

/-- How a call of `Fetcher.fetch` ends: a returned `(status, text)` pair, or
an exception propagating out of `fetch` (possible only when
`compute_delay_ms` raises `ZeroDivisionError` inside the
`except httpx.RequestError` handler, where no enclosing handler catches
it). -/
inductive FetchResult where
  | ret (status : ℕ) (text : String)
  | raised
deriving DecidableEq, Repr

/-- The state produced by `Fetcher.fetch`'s retry loop: how the call ended,
the proxy pool afterwards, the number of network attempts issued, and the
number of backoff sleeps performed. -/
structure LoopOut where
  result : FetchResult
  pool : ProxyPool
  attempts : ℕ
  sleeps : ℕ

/-- The assignment `proxy_used = proxy_used or self.proxy_pool.next()`: keep a truthy
proxy, otherwise (None or empty string) draw from the pool. -/
def orNext (proxyUsed : Option String) (pool : ProxyPool) :
    Option String × ProxyPool :=
  match proxyUsed with
  | some s => if s = "" then pool.next else (some s, pool)
  | none => pool.next

/-- The retry loop of `Fetcher.fetch` (`while attempt <= self.max_retries`),
entered with `gas = max_retries + 1` and `attempt = 0`; `gas` counts the
remaining iterations (`max_retries + 1 - attempt`), so `gas = 0` is the loop
exiting into `return 599, "Max retries exceeded"`.  Each iteration draws
randomized headers (no effect on control flow, omitted), takes
`proxy_used or proxy_pool.next()`, and classifies `network attempt`:
- a retryable status sleeps `compute_delay_ms(attempt + 1)`, increments
  `attempt`, marks the proxy failed and clears it (a `ZeroDivisionError`
  from the delay computation is raised inside the `try` block, so the
  generic `except Exception` turns it into `return 520`);
- `httpx.RequestError` does the same, except that the delay computation now
  runs inside the `except` handler, so its `ZeroDivisionError` propagates
  out of `fetch`;
- any other exception returns `520, "Unexpected error"` without retrying;
- any other status marks the proxy successful and returns
  `(status, text)`. -/
def Fetcher.fetchLoop (network : ℕ → NetOutcome) (initial_ms max_ms : ℤ)
    (clock : ℕ → ℚ) :
    ℕ → ℕ → Option String → ProxyPool → ℕ → ℕ → LoopOut
  | 0, _, _, pool, attempts, sleeps =>
    { result := .ret 599 "Max retries exceeded", pool := pool,
      attempts := attempts, sleeps := sleeps }
  | gas + 1, attempt, proxyUsed, pool, attempts, sleeps =>
    let pn := orNext proxyUsed pool
    let proxy := pn.1
    let pool1 := pn.2
    match network attempt with
    | .ok status text =>
      if retryable status then
        match compute_delay_ms initial_ms max_ms (attempt + 1)
            (clock attempt) with
        | none =>
          { result := .ret 520 "Unexpected error", pool := pool1,
            attempts := attempts + 1, sleeps := sleeps }
        | some _ =>
          Fetcher.fetchLoop network initial_ms max_ms clock gas
            (attempt + 1) none (pool1.mark_failure proxy) (attempts + 1)
            (sleeps + 1)
      else
        { result := .ret status text, pool := pool1.mark_success proxy,
          attempts := attempts + 1, sleeps := sleeps }
    | .requestError =>
      match compute_delay_ms initial_ms max_ms (attempt + 1)
          (clock attempt) with
      | none =>
        { result := .raised, pool := pool1, attempts := attempts + 1,
          sleeps := sleeps }
      | some _ =>
        Fetcher.fetchLoop network initial_ms max_ms clock gas
          (attempt + 1) none (pool1.mark_failure proxy) (attempts + 1)
          (sleeps + 1)
    | .unexpectedError =>
      { result := .ret 520 "Unexpected error", pool := pool1,
        attempts := attempts + 1, sleeps := sleeps }

/-- The observable trace of one `Fetcher.fetch` call: the result, the number
of `rate_limiter.wait` invocations, the number of network attempts, the
number of backoff sleeps, and the proxy-pool / robots-cache state
afterwards. -/
structure FetchTrace where
  result : FetchResult
  waitCalls : ℕ
  attempts : ℕ
  sleeps : ℕ
  pool : ProxyPool
  robots : RobotsCache

/-- Embedding of `Fetcher.fetch(url)`: if `respect_robots` is set and
`robots.allowed(url)` is false, return `451, "Blocked by robots.txt"`
immediately (the surrounding `try/except` only matters if `allowed` raises,
which the model's total `allowed` never does); otherwise perform the single
`rate_limiter.wait(get_domain(url))` and run the retry loop with
`attempt = 0`. -/
def Fetcher.fetch (respect_robots : Bool) (max_retries : ℕ)
    (initial_ms max_ms : ℤ) (robots : RobotsCache)
    (readOracle : String → Option RpState) (network : ℕ → NetOutcome)
    (clock : ℕ → ℚ) (pool : ProxyPool) (url : ParsedUrl) : FetchTrace :=
  let ar := robots.allowed readOracle url
  let robotsAfter := if respect_robots then ar.2 else robots
  if respect_robots ∧ ar.1 = false then
    { result := .ret 451 "Blocked by robots.txt", waitCalls := 0,
      attempts := 0, sleeps := 0, pool := pool, robots := robotsAfter }
  else
    let r := Fetcher.fetchLoop network initial_ms max_ms clock
      (max_retries + 1) 0 none pool 0 0
    { result := r.result, waitCalls := 1, attempts := r.attempts,
      sleeps := r.sleeps, pool := r.pool, robots := robotsAfter }

/-- What the injected per-URL handler does on a URL: return a batch of
discovered URLs (each then passed to `Scheduler.enqueue`), or raise. -/
inductive HandlerResult where
  | ok (discovered : List ParsedUrl)
  | err (msg : String)
deriving DecidableEq, Repr

/-- Whether a handler outcome is a raised exception. -/
def HandlerResult.isErr (r : HandlerResult) : Bool :=
  match r with
  | .ok _ => false
  | .err _ => true

/-- The state of one `Scheduler.run` drain: the scheduler (queue and seen
set), the items marked done (`task_done`) in processing order, and the
number of handler errors caught and logged by the worker loop. -/
structure RunState where
  sched : Scheduler
  processed : List ParsedUrl
  errors : ℕ
deriving DecidableEq

/-- One iteration of `Scheduler.run`'s worker loop, sequentially: pop the
queue head, invoke the handler under `try/except Exception`; on success
enqueue every discovered URL, on a raised error only log it; in both cases
(`finally`) the item is marked done.  A no-op on an empty queue. -/
def runStep (handler : ParsedUrl → HandlerResult) (st : RunState) :
    RunState :=
  match st.sched.queue with
  | [] => st
  | u :: rest =>
    let sched1 : Scheduler :=
      { st.sched with queue := rest }
    match handler u with
    | .ok discovered =>
      { sched := discovered.foldl Scheduler.enqueue sched1,
        processed := st.processed ++ [u], errors := st.errors }
    | .err _ =>
      { sched := sched1, processed := st.processed ++ [u],
        errors := st.errors + 1 }

/-- Embedding of `Scheduler.run`'s drain-to-completion semantics (`queue.join()`):
iterate `runStep` until the queue is empty; `fuel` bounds the number of
iterations, and `none` means the drain did not finish within `fuel` steps.
No handler error escapes: the result type carries no exception. -/
def runLoop (handler : ParsedUrl → HandlerResult) :
    ℕ → RunState → Option RunState
  | 0, st => if st.sched.queue = [] then some st else none
  | fuel + 1, st =>
    if st.sched.queue = [] then some st
    else runLoop handler fuel (runStep handler st)

/-- Example URL `http://a.example/x` (parsed form), used by witnesses. -/
def urlAX : ParsedUrl :=
  { scheme := "http", netloc := "a.example", path := "/x", params := "",
    query := "", fragment := "" }

/-- The URL `http://a.example/x#frag1`: same normalized form as `urlAX`. -/
def urlAXfrag1 : ParsedUrl := { urlAX with fragment := "frag1" }

/-- The URL `http://a.example/x#frag2`: same normalized form as `urlAX`. -/
def urlAXfrag2 : ParsedUrl := { urlAX with fragment := "frag2" }

/-- Example URL `http://b.example/y` (parsed form), outside the domain scope
`["a.example"]`. -/
def urlBY : ParsedUrl :=
  { scheme := "http", netloc := "b.example", path := "/y", params := "",
    query := "", fragment := "" }

/-- A robots.txt read oracle on which every fetch raises (network failure
for every domain). -/
def oracleRaise : String → Option RpState := fun _ => none

/-- A robots.txt read oracle whose every robots file disallows everything
(HTTP 401/403 on the robots fetch sets `disallow_all`). -/
def oracleDeny : String → Option RpState := fun _ => some .disallowAll

/-- A network oracle that answers HTTP 503 to every attempt. -/
def netAlways503 : ℕ → NetOutcome := fun _ => .ok 503 "busy"

/-- A network oracle: 503 on the first attempt, 200 afterwards. -/
def net503Then200 : ℕ → NetOutcome := fun k =>
  if k = 0 then .ok 503 "busy" else .ok 200 "body"

/-- A network oracle that always answers HTTP 200. -/
def netAlways200 : ℕ → NetOutcome := fun _ => .ok 200 "body"

/-- An event-loop clock stuck at 0 (its reading only feeds the jitter). -/
def clock0 : ℕ → ℚ := fun _ => 0

/-- A handler that raises on `urlAX` and discovers nothing elsewhere. -/
def handlerBoom : ParsedUrl → HandlerResult := fun u =>
  if u = urlAX then .err "boom" else .ok []

/-- A demo run state: two URLs queued, nothing processed yet. -/
def runDemoStart : RunState :=
  { sched := { queue := [urlAX, urlBY], seen := ∅, allowed_domains := [] },
    processed := [], errors := 0 }

/-- The state `runLoop handlerBoom` reaches from `runDemoStart`: both items
processed (the first via the caught handler error), queue drained. -/
def runDemoEnd : RunState :=
  { sched := { queue := [], seen := ∅, allowed_domains := [] },
    processed := [urlAX, urlBY], errors := 1 }

theorem normalize_url_idem (u : ParsedUrl) :
    normalize_url (normalize_url u) = normalize_url u := rfl

theorem same_domain_normalize (u : ParsedUrl) (domains : List String) :
    same_domain (normalize_url u) domains = same_domain u domains := rfl

theorem Scheduler.enqueue_allowed_domains (s : Scheduler) (u : ParsedUrl) :
    (s.enqueue u).allowed_domains = s.allowed_domains := by
  simp only [Scheduler.enqueue]
  split_ifs <;> rfl

/-- A second `enqueue` with the same normalized form returns the state of
the first unchanged. -/
theorem Scheduler.enqueue_second (s : Scheduler) (u u' : ParsedUrl)
    (h : normalize_url u' = normalize_url u) :
    (s.enqueue u).enqueue u' = s.enqueue u := by
  by_cases h1 : s.allowed_domains ≠ [] ∧
      ¬ same_domain (normalize_url u) s.allowed_domains
  · have e1 : s.enqueue u = s := by
      simp only [Scheduler.enqueue, if_pos h1]
    rw [e1]
    simp only [Scheduler.enqueue, h, if_pos h1]
  · by_cases h2 : normalize_url u ∈ s.seen
    · have e1 : s.enqueue u = s := by
        simp only [Scheduler.enqueue, if_neg h1, if_pos h2]
      rw [e1]
      simp only [Scheduler.enqueue, h, if_neg h1, if_pos h2]
    · have e1 : s.enqueue u =
          { s with seen := insert (normalize_url u) s.seen,
                   queue := s.queue ++ [normalize_url u] } := by
        simp only [Scheduler.enqueue, if_neg h1, if_neg h2]
      rw [e1]
      simp only [Scheduler.enqueue, h]
      rw [if_neg h1, if_pos (Finset.mem_insert_self _ _)]

/-- C3: for every scheduler state and every URL, a second `enqueue` of any
URL with the same normalized form is a no-op: queue length and seen-set
size are unchanged (and `enqueue` is total, so no error is raised). -/
theorem c3_enqueue_twice_noop (s : Scheduler) (u u' : ParsedUrl)
    (h : normalize_url u' = normalize_url u) :
    ((s.enqueue u).enqueue u').queue.length = (s.enqueue u).queue.length ∧
    ((s.enqueue u).enqueue u').seen.card = (s.enqueue u).seen.card := by
  rw [Scheduler.enqueue_second s u u' h]
  exact ⟨rfl, rfl⟩

/-- Witness for C3 at a concrete state and the URLs
`http://a.example/x#frag1` / `http://a.example/x#frag2`. -/
theorem c3_enqueue_twice_noop_witness :
    (((Scheduler.init [] ["a.example"]).enqueue urlAXfrag1).enqueue
        urlAXfrag2).queue.length
      = ((Scheduler.init [] ["a.example"]).enqueue urlAXfrag1).queue.length ∧
    (((Scheduler.init [] ["a.example"]).enqueue urlAXfrag1).enqueue
        urlAXfrag2).seen.card
      = ((Scheduler.init [] ["a.example"]).enqueue urlAXfrag1).seen.card :=
  c3_enqueue_twice_noop (Scheduler.init [] ["a.example"]) urlAXfrag1
    urlAXfrag2 rfl

/-- An out-of-scope URL is dropped by `enqueue` with the state unchanged. -/
theorem Scheduler.enqueue_out_of_scope (s : Scheduler) (u : ParsedUrl)
    (hne : s.allowed_domains ≠ [])
    (hout : same_domain (normalize_url u) s.allowed_domains = false) :
    s.enqueue u = s := by
  simp only [Scheduler.enqueue]
  rw [if_pos]
  exact ⟨hne, by simp [hout]⟩

/-- The call `enqueue` preserves the invariant that every seen-set and queue entry is
in scope (when a non-empty allow-list is configured). -/
theorem Scheduler.enqueue_scope_invariant (s : Scheduler) (v : ParsedUrl)
    (hne : s.allowed_domains ≠ [])
    (hseen : ∀ x ∈ s.seen, same_domain x s.allowed_domains = true)
    (hqueue : ∀ x ∈ s.queue, same_domain x s.allowed_domains = true) :
    (∀ x ∈ (s.enqueue v).seen, same_domain x s.allowed_domains = true) ∧
    (∀ x ∈ (s.enqueue v).queue, same_domain x s.allowed_domains = true) := by
  by_cases h1 : s.allowed_domains ≠ [] ∧
      ¬ same_domain (normalize_url v) s.allowed_domains
  · simp only [Scheduler.enqueue, if_pos h1]
    exact ⟨hseen, hqueue⟩
  · have hv : same_domain (normalize_url v) s.allowed_domains = true := by
      by_contra hc
      exact h1 ⟨hne, by simpa using hc⟩
    by_cases h2 : normalize_url v ∈ s.seen
    · simp only [Scheduler.enqueue, if_neg h1, if_pos h2]
      exact ⟨hseen, hqueue⟩
    · simp only [Scheduler.enqueue, if_neg h1, if_neg h2]
      constructor
      · intro x hx
        rcases Finset.mem_insert.mp hx with hx | hx
        · rw [hx]; exact hv
        · exact hseen x hx
      · intro x hx
        rcases List.mem_append.mp hx with hx | hx
        · exact hqueue x hx
        · rw [List.mem_singleton.mp hx]; exact hv

/-- The in-scope invariant holds after folding `enqueue` over any URL
list. -/
theorem Scheduler.foldl_scope_invariant (domains : List String)
    (hne : domains ≠ []) :
    ∀ (l : List ParsedUrl) (s : Scheduler),
      s.allowed_domains = domains →
      (∀ x ∈ s.seen, same_domain x domains = true) →
      (∀ x ∈ s.queue, same_domain x domains = true) →
      (l.foldl Scheduler.enqueue s).allowed_domains = domains ∧
      (∀ x ∈ (l.foldl Scheduler.enqueue s).seen,
        same_domain x domains = true) ∧
      (∀ x ∈ (l.foldl Scheduler.enqueue s).queue,
        same_domain x domains = true) := by
  intro l
  induction l with
  | nil => intro s had hseen hqueue; exact ⟨had, hseen, hqueue⟩
  | cons v tl ih =>
    intro s had hseen hqueue
    have hne' : s.allowed_domains ≠ [] := by rw [had]; exact hne
    have hinv := Scheduler.enqueue_scope_invariant s v hne'
      (by rw [had]; exact hseen) (by rw [had]; exact hqueue)
    have had' : (s.enqueue v).allowed_domains = domains := by
      rw [Scheduler.enqueue_allowed_domains]; exact had
    exact ih (s.enqueue v) had'
      (by rw [had] at hinv; exact hinv.1)
      (by rw [had] at hinv; exact hinv.2)

/-- C4: with a non-empty allow-list, after the constructor's seed enqueues
and any further sequence of `enqueue` calls, an `enqueue` of a URL whose
normalized domain suffix-matches no allowed domain (case-insensitively)
leaves the whole state unchanged, and such a URL is in neither the seen set
nor the queue. -/
theorem c4_out_of_scope_excluded (seeds urls : List ParsedUrl)
    (u : ParsedUrl) (domains : List String) (hne : domains ≠ [])
    (hout : same_domain (normalize_url u) domains = false) :
    ((urls.foldl Scheduler.enqueue (Scheduler.init seeds domains)).enqueue u
      = urls.foldl Scheduler.enqueue (Scheduler.init seeds domains)) ∧
    normalize_url u ∉
      (urls.foldl Scheduler.enqueue (Scheduler.init seeds domains)).seen ∧
    normalize_url u ∉
      (urls.foldl Scheduler.enqueue (Scheduler.init seeds domains)).queue := by
  have hbase := Scheduler.foldl_scope_invariant domains hne seeds
    { queue := [], seen := ∅, allowed_domains := domains } rfl
    (by intro x hx; exact absurd hx (Finset.not_mem_empty x))
    (by intro x hx; exact absurd hx (List.not_mem_nil x))
  have hfold := Scheduler.foldl_scope_invariant domains hne urls
    (Scheduler.init seeds domains) hbase.1 hbase.2.1 hbase.2.2
  refine ⟨?_, ?_, ?_⟩
  · exact Scheduler.enqueue_out_of_scope _ u
      (by rw [hfold.1]; exact hne) (by rw [hfold.1]; exact hout)
  · intro hmem
    have hin := hfold.2.1 _ hmem
    rw [hin] at hout
    exact Bool.noConfusion hout
  · intro hmem
    have hin := hfold.2.2 _ hmem
    rw [hin] at hout
    exact Bool.noConfusion hout

/-- Witness for C4: seeds and one further enqueue on domain `a.example`,
then the out-of-scope URL `http://b.example/y`. -/
theorem c4_out_of_scope_excluded_witness :
    (([urlAXfrag1].foldl Scheduler.enqueue
        (Scheduler.init [urlAX] ["a.example"])).enqueue urlBY
      = [urlAXfrag1].foldl Scheduler.enqueue
        (Scheduler.init [urlAX] ["a.example"])) ∧
    normalize_url urlBY ∉
      ([urlAXfrag1].foldl Scheduler.enqueue
        (Scheduler.init [urlAX] ["a.example"])).seen ∧
    normalize_url urlBY ∉
      ([urlAXfrag1].foldl Scheduler.enqueue
        (Scheduler.init [urlAX] ["a.example"])).queue :=
  c4_out_of_scope_excluded [urlAX] [urlAXfrag1] urlBY ["a.example"]
    (by decide) (by decide)

theorem pymod_nonneg (x y : ℚ) (hy : 0 < y) : 0 ≤ pymod x y := by
  have h := Int.floor_le (x / y)
  have hle : y * (⌊x / y⌋ : ℚ) ≤ y * (x / y) :=
    mul_le_mul_of_nonneg_left h (le_of_lt hy)
  have hxy : y * (x / y) = x := by field_simp
  unfold pymod; linarith [hxy ▸ hle]

theorem pymod_lt (x y : ℚ) (hy : 0 < y) : pymod x y < y := by
  have h := Int.lt_floor_add_one (x / y)
  have hlt : y * (x / y) < y * ((⌊x / y⌋ : ℚ) + 1) :=
    mul_lt_mul_of_pos_left h hy
  have hxy : y * (x / y) = x := by field_simp
  unfold pymod; nlinarith [hxy ▸ hlt]

theorem baseOf_pos (initial_ms max_ms : ℤ) (attempt : ℕ)
    (hi : 0 < initial_ms) (hm : 0 < max_ms) :
    0 < baseOf initial_ms max_ms attempt := by
  unfold baseOf
  apply lt_min
  · have h1 : (0 : ℚ) < (initial_ms : ℚ) := by exact_mod_cast hi
    positivity
  · exact_mod_cast hm

theorem compute_delay_ms_isSome_of_base_ne (initial_ms max_ms : ℤ)
    (attempt : ℕ) (t : ℚ) (h : baseOf initial_ms max_ms attempt ≠ 0) :
    (compute_delay_ms initial_ms max_ms attempt t).isSome := by
  unfold compute_delay_ms
  simp only [mul_eq_zero]
  rw [if_neg]
  · rfl
  · rintro (h0 | h0)
    · exact h h0
    · norm_num at h0

/-- A returned delay is exactly `base + (t % jitter) - jitter / 2`. -/
theorem compute_delay_ms_eq_some (i m : ℤ) (a : ℕ) (t d : ℚ)
    (h : compute_delay_ms i m a t = some d) :
    d = baseOf i m a + pymod t (baseOf i m a * (2 / 10))
        - baseOf i m a * (2 / 10) / 2 := by
  simp only [compute_delay_ms] at h
  by_cases hj : baseOf i m a * (2 / 10) = 0
  · rw [if_pos hj] at h
    exact absurd h (Option.noConfusion)
  · rw [if_neg hj] at h
    exact (Option.some_inj.mp h).symm

/-- C8: with positive backoff configuration, every value
`compute_delay_ms` returns for attempt `>= 1` lies within
`[0.8 * base, 1.2 * base]` of the unjittered base
`min(initial_ms * 2^(attempt-1), max_ms)`, and before the base saturates at
`max_ms` (i.e. while `initial_ms * 2^attempt <= max_ms`) the delay is
non-decreasing from one attempt to the next, whatever the jitter clock
readings are. -/
theorem c8_backoff_range_and_monotone (initial_ms max_ms : ℤ) (attempt : ℕ)
    (hi : 0 < initial_ms) (hm : 0 < max_ms) (ha : 1 ≤ attempt) :
    (∀ t d, compute_delay_ms initial_ms max_ms attempt t = some d →
      (8 / 10 : ℚ) * baseOf initial_ms max_ms attempt ≤ d ∧
      d ≤ (12 / 10 : ℚ) * baseOf initial_ms max_ms attempt) ∧
    ((initial_ms : ℚ) * 2 ^ attempt ≤ (max_ms : ℚ) →
      ∀ t t' d d', compute_delay_ms initial_ms max_ms attempt t = some d →
        compute_delay_ms initial_ms max_ms (attempt + 1) t' = some d' →
        d ≤ d') := by
  have hb : 0 < baseOf initial_ms max_ms attempt :=
    baseOf_pos initial_ms max_ms attempt hi hm
  have hj : 0 < baseOf initial_ms max_ms attempt * (2 / 10) := by
    positivity
  constructor
  · intro t d h
    have hd := compute_delay_ms_eq_some initial_ms max_ms attempt t d h
    have h0 := pymod_nonneg t _ hj
    have h1 := pymod_lt t _ hj
    constructor
    · rw [hd]; linarith
    · rw [hd]; linarith
  · intro hsat t t' d d' h h'
    have hi' : (0 : ℚ) < (initial_ms : ℚ) := by exact_mod_cast hi
    have hstep : (initial_ms : ℚ) * 2 ^ (attempt - 1) ≤
        (initial_ms : ℚ) * 2 ^ attempt := by
      apply mul_le_mul_of_nonneg_left _ (le_of_lt hi')
      exact pow_le_pow_right₀ (by norm_num) (Nat.sub_le attempt 1)
    have hbase_a : baseOf initial_ms max_ms attempt =
        (initial_ms : ℚ) * 2 ^ (attempt - 1) :=
      min_eq_left (le_trans hstep hsat)
    have hbase_a1 : baseOf initial_ms max_ms (attempt + 1) =
        (initial_ms : ℚ) * 2 ^ attempt := by
      unfold baseOf
      rw [Nat.add_sub_cancel]
      exact min_eq_left hsat
    have hdouble : baseOf initial_ms max_ms (attempt + 1) =
        2 * baseOf initial_ms max_ms attempt := by
      have hpow : (2 : ℚ) ^ attempt = 2 ^ (attempt - 1) * 2 := by
        rw [← pow_succ, Nat.sub_add_cancel ha]
      rw [hbase_a, hbase_a1, hpow]
      ring
    have hb1 : 0 < baseOf initial_ms max_ms (attempt + 1) :=
      baseOf_pos initial_ms max_ms (attempt + 1) hi hm
    have hj1 : 0 < baseOf initial_ms max_ms (attempt + 1) * (2 / 10) := by
      positivity
    have hd := compute_delay_ms_eq_some initial_ms max_ms attempt t d h
    have hd' := compute_delay_ms_eq_some initial_ms max_ms (attempt + 1)
      t' d' h'
    have h1 := pymod_lt t _ hj
    have h0' := pymod_nonneg t' _ hj1
    rw [hd, hd', hdouble]
    rw [hdouble] at h0'
    linarith

/-- Witness for C8 at `initial_ms = 100`, `max_ms = 10000`, attempt 1 (jitter
clock 0): the delay 90 is in range and is at most the attempt-2 delay
180. -/
theorem c8_backoff_range_and_monotone_witness :
    ((8 / 10 : ℚ) * baseOf 100 10000 1 ≤ 90 ∧
      (90 : ℚ) ≤ (12 / 10 : ℚ) * baseOf 100 10000 1) ∧
    (90 : ℚ) ≤ 180 := by
  have h := c8_backoff_range_and_monotone 100 10000 1 (by norm_num)
    (by norm_num) (le_refl 1)
  exact ⟨h.1 0 90 (by norm_num [compute_delay_ms, baseOf, pymod]),
    h.2 (by norm_num) 0 0 90 180
      (by norm_num [compute_delay_ms, baseOf, pymod])
      (by norm_num [compute_delay_ms, baseOf, pymod])⟩

/-- C10: for non-negative configuration, `compute_delay_ms` succeeds exactly
when the unjittered base is strictly positive; when the base is 0 (e.g.
`initial_ms = 0` or `max_ms = 0`) the jitter modulo divides by zero and the
call raises (`none`). -/
theorem c10_zero_base_divzero (i m : ℤ) (a : ℕ) (t : ℚ)
    (hi : 0 ≤ i) (hm : 0 ≤ m) :
    (baseOf i m a = 0 → compute_delay_ms i m a t = none) ∧
    ((compute_delay_ms i m a t).isSome ↔ 0 < baseOf i m a) := by
  have hnonneg : 0 ≤ baseOf i m a := by
    apply le_min
    · have hi' : (0 : ℚ) ≤ (i : ℚ) := by exact_mod_cast hi
      positivity
    · exact_mod_cast hm
  have hzero : baseOf i m a = 0 → compute_delay_ms i m a t = none := by
    intro h0
    simp [compute_delay_ms, h0]
  refine ⟨hzero, ?_, ?_⟩
  · intro hs
    rcases lt_or_eq_of_le hnonneg with hlt | heq
    · exact hlt
    · rw [hzero heq.symm] at hs
      exact absurd hs (by simp)
  · intro hpos
    exact compute_delay_ms_isSome_of_base_ne i m a t (ne_of_gt hpos)

/-- Witness for C10 at `initial_ms = 0`, `max_ms = 1000`, attempt 1: the
base is 0 and the call raises. -/
theorem c10_zero_base_divzero_witness :
    compute_delay_ms 0 1000 1 0 = none :=
  (c10_zero_base_divzero 0 1000 1 0 (by norm_num) (by norm_num)).1
    (by norm_num [baseOf])

/-- Any proxy the round-robin scan returns has a failure count below the
threshold. -/
theorem ProxyPool.nextAux_some (proxies : List String) (threshold : ℕ)
    (counts : String → ℕ) (start : ℕ) :
    ∀ (fuel i : ℕ) (r : String),
      (ProxyPool.nextAux proxies threshold counts start fuel i).1 = some r →
      counts r < threshold := by
  intro fuel
  induction fuel with
  | zero => intro i r h; exact absurd h (by simp [ProxyPool.nextAux])
  | succ n ih =>
    intro i r h
    simp only [ProxyPool.nextAux] at h
    by_cases h1 : counts (proxies.getD i "") < threshold
    · rw [if_pos h1] at h
      have hr : proxies.getD i "" = r := Option.some_inj.mp h
      rw [← hr]
      exact h1
    · rw [if_neg h1] at h
      by_cases h2 : (i + 1) % proxies.length = start
      · rw [if_pos h2] at h
        exact absurd h (by simp)
      · rw [if_neg h2] at h
        exact ih _ r h

/-- If every proxy in a non-empty pool is at or above the threshold, the
scan reports `none` (after one full cycle) rather than looping forever. -/
theorem ProxyPool.nextAux_none (proxies : List String) (threshold : ℕ)
    (counts : String → ℕ) (start : ℕ) (hne : proxies ≠ [])
    (hall : ∀ q ∈ proxies, threshold ≤ counts q) :
    ∀ (fuel i : ℕ), i < proxies.length →
      (ProxyPool.nextAux proxies threshold counts start fuel i).1 = none := by
  have hlen : 0 < proxies.length := List.length_pos.mpr hne
  intro fuel
  induction fuel with
  | zero => intro i _; rfl
  | succ n ih =>
    intro i hi
    have hmem : proxies.getD i "" ∈ proxies := by
      rw [List.getD_eq_getElem proxies "" hi]
      exact List.getElem_mem hi
    have hcnt : ¬ counts (proxies.getD i "") < threshold :=
      not_lt.mpr (hall _ hmem)
    simp only [ProxyPool.nextAux]
    rw [if_neg hcnt]
    by_cases h2 : (i + 1) % proxies.length = start
    · rw [if_pos h2]
    · rw [if_neg h2]
      exact ih ((i + 1) % proxies.length) (Nat.mod_lt _ hlen)

/-- The scan `next` only ever returns a proxy whose failure count is below the
threshold. -/
theorem ProxyPool.next_some (p : ProxyPool) (r : String)
    (h : (p.next).1 = some r) : p.fail_counts r < p.fail_threshold := by
  simp only [ProxyPool.next] at h
  by_cases hne : p.proxies = []
  · rw [if_pos hne] at h
    exact absurd h (by simp)
  · rw [if_neg hne] at h
    exact ProxyPool.nextAux_some p.proxies p.fail_threshold p.fail_counts
      (p.idx % p.proxies.length) p.proxies.length
      (p.idx % p.proxies.length) r h

/-- The storm `failStorm` preserves the proxy list and threshold and adds `n` to the
target's failure counter. -/
theorem failStorm_spec (q : String) (hq : q ≠ "") :
    ∀ (n : ℕ) (p : ProxyPool),
      (failStorm q n p).proxies = p.proxies ∧
      (failStorm q n p).fail_threshold = p.fail_threshold ∧
      (failStorm q n p).fail_counts q = p.fail_counts q + n := by
  intro n
  induction n with
  | zero => intro p; exact ⟨rfl, rfl, rfl⟩
  | succ k ih =>
    intro p
    have hstep : failStorm q (k + 1) p =
        failStorm q k (p.mark_failure (some q)) := by
      unfold failStorm
      exact Function.iterate_succ_apply _ k p
    obtain ⟨h1, h2, h3⟩ := ih (p.mark_failure (some q))
    rw [hstep]
    refine ⟨?_, ?_, ?_⟩
    · rw [h1]; simp [ProxyPool.mark_failure, hq]
    · rw [h2]; simp [ProxyPool.mark_failure, hq]
    · rw [h3]
      simp [ProxyPool.mark_failure, hq]
      omega

/-- C6: after `fail_threshold` consecutive `mark_failure` calls on proxy `q`
with no intervening `mark_success`, `next()` never returns `q` (in
particular while another proxy is still below the threshold); and on any
pool in which a full round-robin cycle finds no proxy below the threshold —
or whose proxy list is empty — `next()` returns `none` instead of looping
forever. -/
theorem c6_proxy_circuit_breaking (p : ProxyPool) (q : String)
    (hq : q ≠ "") :
    ((∃ r ∈ (failStorm q p.fail_threshold p).proxies, r ≠ q ∧
        (failStorm q p.fail_threshold p).fail_counts r <
          (failStorm q p.fail_threshold p).fail_threshold) →
      ((failStorm q p.fail_threshold p).next).1 ≠ some q) ∧
    (∀ pool : ProxyPool,
      ((∀ r ∈ pool.proxies, pool.fail_threshold ≤ pool.fail_counts r) ∨
        pool.proxies = []) →
      (pool.next).1 = none) := by
  constructor
  · intro _ h
    obtain ⟨_, h2, h3⟩ := failStorm_spec q hq p.fail_threshold p
    have hlt := ProxyPool.next_some _ q h
    rw [h2, h3] at hlt
    omega
  · intro pool hyp
    simp only [ProxyPool.next]
    by_cases hne : pool.proxies = []
    · rw [if_pos hne]
    · rw [if_neg hne]
      rcases hyp with hall | hnil
      · exact ProxyPool.nextAux_none pool.proxies pool.fail_threshold
          pool.fail_counts (pool.idx % pool.proxies.length) hne hall
          pool.proxies.length (pool.idx % pool.proxies.length)
          (Nat.mod_lt _ (List.length_pos.mpr hne))
      · exact absurd hnil hne

/-- Witness for C6: a two-proxy pool after three failures on `p1` (with `p2`
still eligible), and an empty pool. -/
theorem c6_proxy_circuit_breaking_witness :
    (((failStorm "p1" (ProxyPool.init ["p1", "p2"]).fail_threshold
        (ProxyPool.init ["p1", "p2"])).next).1 ≠ some "p1") ∧
    ((ProxyPool.init []).next).1 = none := by
  have h := c6_proxy_circuit_breaking (ProxyPool.init ["p1", "p2"]) "p1"
    (by decide)
  refine ⟨h.1 ?_, h.2 (ProxyPool.init []) (Or.inr rfl)⟩
  refine ⟨"p2", by decide, by decide, ?_⟩
  decide

/-- A retryable outcome (retryable status or network error) with a
successful delay computation: sleep, advance the attempt, mark the proxy
failed and drop it. -/
theorem fetchLoop_retry_step (network : ℕ → NetOutcome) (i m : ℤ)
    (clock : ℕ → ℚ) (gas attempt : ℕ) (proxyUsed : Option String)
    (pool : ProxyPool) (attempts sleeps : ℕ)
    (hr : retryableOutcome (network attempt) = true)
    (hd : (compute_delay_ms i m (attempt + 1) (clock attempt)).isSome) :
    Fetcher.fetchLoop network i m clock (gas + 1) attempt proxyUsed pool
        attempts sleeps
      = Fetcher.fetchLoop network i m clock gas (attempt + 1) none
          ((orNext proxyUsed pool).2.mark_failure (orNext proxyUsed pool).1)
          (attempts + 1) (sleeps + 1) := by
  obtain ⟨d, hdeq⟩ := Option.isSome_iff_exists.mp hd
  simp only [Fetcher.fetchLoop]
  cases hnet : network attempt with
  | ok status text =>
    rw [hnet] at hr
    simp only [retryableOutcome] at hr
    simp only [hr, if_true, hdeq]
  | requestError =>
    simp only [hdeq]
  | unexpectedError =>
    rw [hnet] at hr
    simp only [retryableOutcome] at hr
    exact absurd hr (by simp)

/-- A non-retryable status returns `(status, text)` after marking the proxy
successful. -/
theorem fetchLoop_return_step (network : ℕ → NetOutcome) (i m : ℤ)
    (clock : ℕ → ℚ) (gas attempt : ℕ) (proxyUsed : Option String)
    (pool : ProxyPool) (attempts sleeps : ℕ) (status : ℕ) (text : String)
    (hnet : network attempt = .ok status text)
    (hs : retryable status = false) :
    Fetcher.fetchLoop network i m clock (gas + 1) attempt proxyUsed pool
        attempts sleeps
      = { result := .ret status text,
          pool := (orNext proxyUsed pool).2.mark_success
            (orNext proxyUsed pool).1,
          attempts := attempts + 1, sleeps := sleeps } := by
  have hns : ¬ (retryable status = true) := by
    rw [hs]; exact Bool.false_ne_true
  simp only [Fetcher.fetchLoop, hnet]
  rw [if_neg hns]

/-- If every outcome in the remaining window is retryable and the backoff
configuration is positive, the loop exhausts its gas: `599`, one network
attempt and one sleep per unit of gas. -/
theorem fetchLoop_all_retryable (network : ℕ → NetOutcome) (i m : ℤ)
    (clock : ℕ → ℚ) (hi : 0 < i) (hm : 0 < m) :
    ∀ (gas attempt : ℕ) (proxyUsed : Option String) (pool : ProxyPool)
      (attempts sleeps : ℕ),
      (∀ k, attempt ≤ k → k < attempt + gas →
        retryableOutcome (network k) = true) →
      (Fetcher.fetchLoop network i m clock gas attempt proxyUsed pool
        attempts sleeps).result = .ret 599 "Max retries exceeded" ∧
      (Fetcher.fetchLoop network i m clock gas attempt proxyUsed pool
        attempts sleeps).attempts = attempts + gas ∧
      (Fetcher.fetchLoop network i m clock gas attempt proxyUsed pool
        attempts sleeps).sleeps = sleeps + gas := by
  intro gas
  induction gas with
  | zero => intro attempt proxyUsed pool attempts sleeps _; exact ⟨rfl, rfl, rfl⟩
  | succ n ih =>
    intro attempt proxyUsed pool attempts sleeps hall
    have hd : (compute_delay_ms i m (attempt + 1) (clock attempt)).isSome :=
      compute_delay_ms_isSome_of_base_ne i m (attempt + 1) (clock attempt)
        (ne_of_gt (baseOf_pos i m (attempt + 1) hi hm))
    rw [fetchLoop_retry_step network i m clock n attempt proxyUsed pool
      attempts sleeps (hall attempt (le_refl _) (by omega)) hd]
    obtain ⟨r1, r2, r3⟩ := ih (attempt + 1) none
      ((orNext proxyUsed pool).2.mark_failure (orNext proxyUsed pool).1)
      (attempts + 1) (sleeps + 1)
      (fun k hk1 hk2 => hall k (by omega) (by omega))
    exact ⟨r1, by rw [r2]; omega, by rw [r3]; omega⟩

/-- C7: with robots compliance enabled, if `RobotsCache.allowed(url)` is
false then `fetch` returns the blocked sentinel `451` immediately, with zero
`rate_limiter.wait` invocations and zero network attempts. -/
theorem c7_blocked_sentinel_no_wait (max_retries : ℕ) (i m : ℤ)
    (robots : RobotsCache) (readOracle : String → Option RpState)
    (network : ℕ → NetOutcome) (clock : ℕ → ℚ) (pool : ProxyPool)
    (url : ParsedUrl) (hb : (robots.allowed readOracle url).1 = false) :
    (Fetcher.fetch true max_retries i m robots readOracle network clock
      pool url).result = .ret 451 "Blocked by robots.txt" ∧
    (Fetcher.fetch true max_retries i m robots readOracle network clock
      pool url).waitCalls = 0 ∧
    (Fetcher.fetch true max_retries i m robots readOracle network clock
      pool url).attempts = 0 := by
  simp only [Fetcher.fetch]
  rw [if_pos (show True ∧ (robots.allowed readOracle url).1 = false from
    ⟨trivial, hb⟩)]
  exact ⟨rfl, rfl, rfl⟩

/-- Witness for C7: every robots file disallows all, so `urlAX` is blocked
with no wait and no network attempt. -/
theorem c7_blocked_sentinel_no_wait_witness :
    (Fetcher.fetch true 2 100 1000 RobotsCache.init oracleDeny netAlways200
      clock0 (ProxyPool.init []) urlAX).result
        = .ret 451 "Blocked by robots.txt" ∧
    (Fetcher.fetch true 2 100 1000 RobotsCache.init oracleDeny netAlways200
      clock0 (ProxyPool.init []) urlAX).waitCalls = 0 ∧
    (Fetcher.fetch true 2 100 1000 RobotsCache.init oracleDeny netAlways200
      clock0 (ProxyPool.init []) urlAX).attempts = 0 :=
  c7_blocked_sentinel_no_wait 2 100 1000 RobotsCache.init oracleDeny
    netAlways200 clock0 (ProxyPool.init []) urlAX rfl

/-- Counterexample to C2 as stated: a fetch that performs 2 network
attempts (one 503 retry, then a 200) invokes `rate_limiter.wait` only once,
not once per attempt. -/
theorem c2_counterexample_wait_not_per_attempt :
    (Fetcher.fetch false 2 100 1000 RobotsCache.init oracleRaise
      net503Then200 clock0 (ProxyPool.init []) urlAX).attempts = 2 ∧
    (Fetcher.fetch false 2 100 1000 RobotsCache.init oracleRaise
      net503Then200 clock0 (ProxyPool.init []) urlAX).waitCalls = 1 ∧
    ¬ ((Fetcher.fetch false 2 100 1000 RobotsCache.init oracleRaise
      net503Then200 clock0 (ProxyPool.init []) urlAX).waitCalls
        = (Fetcher.fetch false 2 100 1000 RobotsCache.init oracleRaise
      net503Then200 clock0 (ProxyPool.init []) urlAX).attempts) := by
  have hd1 : (compute_delay_ms 100 1000 (0 + 1) (clock0 0)).isSome :=
    compute_delay_ms_isSome_of_base_ne 100 1000 (0 + 1) (clock0 0)
      (ne_of_gt (baseOf_pos 100 1000 (0 + 1) (by norm_num) (by norm_num)))
  have heval : Fetcher.fetchLoop net503Then200 100 1000 clock0 (2 + 1) 0
      none (ProxyPool.init []) 0 0
      = { result := .ret 200 "body",
          pool := (orNext none ((orNext none
              (ProxyPool.init [])).2.mark_failure (orNext none
              (ProxyPool.init [])).1)).2.mark_success
            (orNext none ((orNext none
              (ProxyPool.init [])).2.mark_failure (orNext none
              (ProxyPool.init [])).1)).1,
          attempts := 2, sleeps := 1 } := by
    rw [fetchLoop_retry_step net503Then200 100 1000 clock0 2 0 none
      (ProxyPool.init []) 0 0 rfl hd1]
    exact fetchLoop_return_step net503Then200 100 1000 clock0 1 1 none
      ((orNext none (ProxyPool.init [])).2.mark_failure
        (orNext none (ProxyPool.init [])).1) 1 1 200 "body" rfl rfl
  have ha : (Fetcher.fetch false 2 100 1000 RobotsCache.init oracleRaise
      net503Then200 clock0 (ProxyPool.init []) urlAX).attempts = 2 := by
    simp only [Fetcher.fetch]
    rw [if_neg (fun hcon => Bool.noConfusion hcon.1)]
    dsimp only
    rw [heval]
  have hw : (Fetcher.fetch false 2 100 1000 RobotsCache.init oracleRaise
      net503Then200 clock0 (ProxyPool.init []) urlAX).waitCalls = 1 := by
    simp only [Fetcher.fetch]
    rw [if_neg (fun hcon => Bool.noConfusion hcon.1)]
  exact ⟨ha, hw, by rw [ha, hw]; decide⟩

/-- C2 amended: `rate_limiter.wait` is invoked exactly once per `fetch`
call that reaches the network — before the first attempt — and is not
re-invoked on retries, however many attempts occur. -/
theorem c2_amended_wait_exactly_once (respect_robots : Bool)
    (max_retries : ℕ) (i m : ℤ) (robots : RobotsCache)
    (readOracle : String → Option RpState) (network : ℕ → NetOutcome)
    (clock : ℕ → ℚ) (pool : ProxyPool) (url : ParsedUrl)
    (h : 1 ≤ (Fetcher.fetch respect_robots max_retries i m robots
      readOracle network clock pool url).attempts) :
    (Fetcher.fetch respect_robots max_retries i m robots readOracle network
      clock pool url).waitCalls = 1 := by
  simp only [Fetcher.fetch] at h ⊢
  by_cases hc : respect_robots = true ∧
      (robots.allowed readOracle url).1 = false
  · rw [if_pos hc] at h
    exact absurd h (by norm_num)
  · rw [if_neg hc]

/-- Witness for C2 amended: a one-attempt fetch has exactly one wait
call. -/
theorem c2_amended_wait_exactly_once_witness :
    (Fetcher.fetch false 0 100 1000 RobotsCache.init oracleRaise
      netAlways200 clock0 (ProxyPool.init []) urlAX).waitCalls = 1 :=
  c2_amended_wait_exactly_once false 0 100 1000 RobotsCache.init
    oracleRaise netAlways200 clock0 (ProxyPool.init []) urlAX (by decide)

/-- Counterexample to C5 as stated: with `max_retries = 2` and every
attempt answering 503, the loop sleeps three times (once after each failed
attempt, including the last), not twice. -/
theorem c5_counterexample_three_sleeps :
    (Fetcher.fetch false 2 100 1000 RobotsCache.init oracleRaise
      netAlways503 clock0 (ProxyPool.init []) urlAX).sleeps = 3 ∧
    ¬ ((Fetcher.fetch false 2 100 1000 RobotsCache.init oracleRaise
      netAlways503 clock0 (ProxyPool.init []) urlAX).sleeps = 2) := by
  have h := fetchLoop_all_retryable netAlways503 100 1000 clock0
    (by norm_num) (by norm_num) (2 + 1) 0 none (ProxyPool.init []) 0 0
    (fun k _ _ => rfl)
  have hs : (Fetcher.fetch false 2 100 1000 RobotsCache.init oracleRaise
      netAlways503 clock0 (ProxyPool.init []) urlAX).sleeps = 3 := by
    simp only [Fetcher.fetch]
    rw [if_neg (fun hcon => Bool.noConfusion hcon.1)]
    dsimp only
    rw [h.2.2]
  exact ⟨hs, by rw [hs]; decide⟩

/-- C5 amended: when `fetch` is not robots-blocked, the backoff
configuration is positive, and every outcome within the retry window is
retryable (e.g. always 503), the loop performs exactly `max_retries + 1`
attempts, sleeps a backoff delay after each of them — `max_retries + 1`
sleeps, including one after the final attempt — and returns the
retries-exhausted sentinel `599` rather than raising. -/
theorem c5_amended_exhaustion (respect_robots : Bool) (max_retries : ℕ)
    (i m : ℤ) (robots : RobotsCache)
    (readOracle : String → Option RpState) (network : ℕ → NetOutcome)
    (clock : ℕ → ℚ) (pool : ProxyPool) (url : ParsedUrl)
    (hi : 0 < i) (hm : 0 < m)
    (hnb : ¬ (respect_robots = true ∧
      (robots.allowed readOracle url).1 = false))
    (hall : ∀ k, k < max_retries + 1 →
      retryableOutcome (network k) = true) :
    (Fetcher.fetch respect_robots max_retries i m robots readOracle network
      clock pool url).result = .ret 599 "Max retries exceeded" ∧
    (Fetcher.fetch respect_robots max_retries i m robots readOracle network
      clock pool url).attempts = max_retries + 1 ∧
    (Fetcher.fetch respect_robots max_retries i m robots readOracle network
      clock pool url).sleeps = max_retries + 1 := by
  obtain ⟨r1, r2, r3⟩ := fetchLoop_all_retryable network i m clock hi hm
    (max_retries + 1) 0 none pool 0 0 (fun k _ hk2 => hall k (by omega))
  simp only [Fetcher.fetch]
  rw [if_neg hnb]
  dsimp only
  exact ⟨r1, by rw [r2]; omega, by rw [r3]; omega⟩

/-- Witness for C5 amended: always-503 with `max_retries = 2` gives 3
attempts, 3 sleeps and status 599. -/
theorem c5_amended_exhaustion_witness :
    (Fetcher.fetch false 2 100 1000 RobotsCache.init oracleDeny
      netAlways503 clock0 (ProxyPool.init []) urlAX).result
        = .ret 599 "Max retries exceeded" ∧
    (Fetcher.fetch false 2 100 1000 RobotsCache.init oracleDeny
      netAlways503 clock0 (ProxyPool.init []) urlAX).attempts = 3 ∧
    (Fetcher.fetch false 2 100 1000 RobotsCache.init oracleDeny
      netAlways503 clock0 (ProxyPool.init []) urlAX).sleeps = 3 :=
  c5_amended_exhaustion false 2 100 1000 RobotsCache.init oracleDeny
    netAlways503 clock0 (ProxyPool.init []) urlAX (by norm_num)
    (by norm_num) (fun hcon => Bool.noConfusion hcon.1)
    (fun k _ => rfl)

/-- C1 (evidence of the code bug): when the robots.txt fetch raises, the
code caches a fresh `RobotFileParser`, whose `can_fetch` denies every URL
until a successful `read()` — so `allowed` returns `False`, not the
documented permissive `True`; the deny-all verdict is cached and repeated
on the second query. -/
theorem c1_fetch_failure_denies_not_allows :
    (RobotsCache.init.allowed oracleRaise urlAX).1 = false ∧
    (((RobotsCache.init.allowed oracleRaise urlAX).2.allowed oracleRaise
      urlAX).1 = false) := by
  exact ⟨rfl, rfl⟩

/-- The call `enqueue` only ever appends to the queue. -/
theorem Scheduler.enqueue_queue_ext (s : Scheduler) (v : ParsedUrl) :
    ∃ tail, (s.enqueue v).queue = s.queue ++ tail := by
  simp only [Scheduler.enqueue]
  split_ifs
  · exact ⟨[], by simp⟩
  · exact ⟨[], by simp⟩
  · exact ⟨[normalize_url v], rfl⟩

/-- Folding `enqueue` over a batch only ever appends to the queue. -/
theorem Scheduler.foldl_enqueue_queue_ext :
    ∀ (l : List ParsedUrl) (s : Scheduler),
      ∃ tail, (l.foldl Scheduler.enqueue s).queue = s.queue ++ tail := by
  intro l
  induction l with
  | nil => intro s; exact ⟨[], by simp⟩
  | cons v tl ih =>
    intro s
    obtain ⟨t1, h1⟩ := Scheduler.enqueue_queue_ext s v
    obtain ⟨t2, h2⟩ := ih (s.enqueue v)
    exact ⟨t1 ++ t2, by rw [List.foldl_cons, h2, h1, List.append_assoc]⟩

/-- One worker iteration on a non-empty queue marks the popped item done
(whether or not the handler raised) and leaves the rest of the queue — plus
any newly enqueued discoveries — pending. -/
theorem runStep_cons (handler : ParsedUrl → HandlerResult) (st : RunState)
    (u : ParsedUrl) (rest : List ParsedUrl)
    (hq : st.sched.queue = u :: rest) :
    (runStep handler st).processed = st.processed ++ [u] ∧
    ∃ tail, (runStep handler st).sched.queue = rest ++ tail := by
  cases hh : handler u with
  | ok discovered =>
    refine ⟨by simp only [runStep, hq, hh], ?_⟩
    simpa only [runStep, hq, hh] using
      Scheduler.foldl_enqueue_queue_ext discovered
        { st.sched with queue := rest }
  | err msg =>
    refine ⟨by simp only [runStep, hq, hh], [], ?_⟩
    simp only [runStep, hq, hh]
    simp

/-- Items already marked done stay marked done for the rest of the
drain. -/
theorem runLoop_processed_mono (handler : ParsedUrl → HandlerResult) :
    ∀ (fuel : ℕ) (st st' : RunState), runLoop handler fuel st = some st' →
      ∀ x ∈ st.processed, x ∈ st'.processed := by
  intro fuel
  induction fuel with
  | zero =>
    intro st st' h x hx
    simp only [runLoop] at h
    by_cases hq : st.sched.queue = []
    · rw [if_pos hq] at h
      rw [← Option.some_inj.mp h]
      exact hx
    · rw [if_neg hq] at h
      exact absurd h (by simp)
  | succ f ih =>
    intro st st' h x hx
    simp only [runLoop] at h
    by_cases hq : st.sched.queue = []
    · rw [if_pos hq] at h
      rw [← Option.some_inj.mp h]
      exact hx
    · rw [if_neg hq] at h
      apply ih _ _ h
      cases hqq : st.sched.queue with
      | nil => exact absurd hqq hq
      | cons u rest =>
        obtain ⟨hp, _⟩ := runStep_cons handler st u rest hqq
        rw [hp]
        exact List.mem_append_left _ hx

/-- A completed drain ends with an empty queue. -/
theorem runLoop_drains (handler : ParsedUrl → HandlerResult) :
    ∀ (fuel : ℕ) (st st' : RunState), runLoop handler fuel st = some st' →
      st'.sched.queue = [] := by
  intro fuel
  induction fuel with
  | zero =>
    intro st st' h
    simp only [runLoop] at h
    by_cases hq : st.sched.queue = []
    · rw [if_pos hq] at h
      rw [← Option.some_inj.mp h]
      exact hq
    · rw [if_neg hq] at h
      exact absurd h (by simp)
  | succ f ih =>
    intro st st' h
    simp only [runLoop] at h
    by_cases hq : st.sched.queue = []
    · rw [if_pos hq] at h
      rw [← Option.some_inj.mp h]
      exact hq
    · rw [if_neg hq] at h
      exact ih _ _ h

/-- Every item pending when the drain starts is marked done by the time it
completes. -/
theorem runLoop_queue_processed (handler : ParsedUrl → HandlerResult) :
    ∀ (fuel : ℕ) (st st' : RunState), runLoop handler fuel st = some st' →
      ∀ u ∈ st.sched.queue, u ∈ st'.processed := by
  intro fuel
  induction fuel with
  | zero =>
    intro st st' h u hu
    simp only [runLoop] at h
    by_cases hq : st.sched.queue = []
    · rw [hq] at hu
      exact absurd hu (List.not_mem_nil u)
    · rw [if_neg hq] at h
      exact absurd h (by simp)
  | succ f ih =>
    intro st st' h u hu
    simp only [runLoop] at h
    by_cases hq : st.sched.queue = []
    · rw [hq] at hu
      exact absurd hu (List.not_mem_nil u)
    · rw [if_neg hq] at h
      cases hqq : st.sched.queue with
      | nil => exact absurd hqq hq
      | cons v rest =>
        obtain ⟨hp, tail, ht⟩ := runStep_cons handler st v rest hqq
        rw [hqq] at hu
        rcases List.mem_cons.mp hu with hv | hrest
        · subst hv
          apply runLoop_processed_mono handler f _ _ h
          rw [hp]
          exact List.mem_append_right _ (List.mem_singleton_self u)
        · apply ih _ _ h
          rw [ht]
          exact List.mem_append_left _ hrest

/-- C9: if the injected handler raises on a queued URL, the worker loop
catches the error, still marks that item done, and keeps processing; no
handler error escapes the drain (its result type carries none), the queue
still drains to empty, and every pending item — the raising one
included — ends up processed. -/
theorem c9_handler_error_isolated (handler : ParsedUrl → HandlerResult)
    (fuel : ℕ) (st st' : RunState) (u : ParsedUrl)
    (hrun : runLoop handler fuel st = some st')
    (hu : u ∈ st.sched.queue) (h_err : (handler u).isErr = true) :
    u ∈ st'.processed ∧ st'.sched.queue = [] ∧
    ∀ v ∈ st.sched.queue, v ∈ st'.processed :=
  ⟨runLoop_queue_processed handler fuel st st' hrun u hu,
   runLoop_drains handler fuel st st' hrun,
   runLoop_queue_processed handler fuel st st' hrun⟩

/-- Witness for C9: `handlerBoom` raises on the first of two queued URLs;
the drain still processes both and empties the queue. -/
theorem c9_handler_error_isolated_witness :
    urlAX ∈ runDemoEnd.processed ∧ runDemoEnd.sched.queue = [] ∧
    ∀ v ∈ runDemoStart.sched.queue, v ∈ runDemoEnd.processed :=
  c9_handler_error_isolated handlerBoom 2 runDemoStart runDemoEnd urlAX
    (by decide) (by decide) (by decide)

end Crawler
